import Mathlib

/-!
# Verification of the three-span value-evolution engine

Shallow embedding of the core of the `three-span` repository: the temporal
remapper (`Span._timerWrapper`), the gradient key normalization
(`Span.gradient`), the keyframe curve interpolator (`curveInterpolation`),
the gradient resolver (`gradientVectorLerp` / `gradientSubRangeLerpParams`),
the array picker (`arrayPick`), the easing table (`easings`), and the
scalar/vector interpolation steppers.  JS numbers are modelled as `ℚ` where
the source only performs field arithmetic and comparisons, and as `ℝ` for
the easing table (which uses `Math.cos`, `Math.sqrt`, `Math.pow`).
-/

namespace ThreeSpan

/-! ## Temporal remapper: `Span._timerWrapper` (part_008, lines 684-715)

The wrapper closes over `_speed`, `_delay`, `_repeat`, `_alternate` and the
mutable variables `timer`, `duration = |speed|`, `repeated`, `expired`,
`firstCycle`.  We thread the mutable variables as an explicit state. -/

/-- JS `Math.abs`, written with `if` so that concrete runs reduce in the
kernel.  Agrees with `|q|` (see `jsAbs_eq_abs`). -/

def jsAbs (q : ℚ) : ℚ := if q < 0 then -q else q

/-- Temporal parameters of a Span (`_speed`, `_delay`, `_repeat`,
`_alternate`).  `repeatCount = none` models the JS default
`repeat = Infinity`; a JS comparison `repeated >= Infinity` is always
false, and `repeat !== Infinity` is `repeatCount ≠ none`. -/

structure SpanTimerParams where
  speed : ℚ
  delay : ℚ
  repeatCount : Option ℚ
  alternate : Bool
deriving DecidableEq, Repr

/-- The mutable closure state of `_timerWrapper`:
`let timer = 0; let repeated = 0; let expired = false; let firstCycle = true`. -/

structure TimerState where
  timer : ℚ
  repeated : ℕ
  expired : Bool
  firstCycle : Bool
deriving DecidableEq, Repr

/-- Initial closure state of `_timerWrapper`. -/

def TimerState.init : TimerState :=
  { timer := 0, repeated := 0, expired := false, firstCycle := true }

/-- JS `repeated >= _repeat` where `_repeat : Option ℚ` (`none` = Infinity,
so the comparison is false). -/

def geRepeat (repeated : ℕ) : Option ℚ → Bool
  | none => false
  | some r => (repeated : ℚ) ≥ r

/-- One call of the closure returned by `Span._timerWrapper`, wrapping the
base stepper `f`.  Returns the produced value together with the updated
closure state.  Mirrors the source line by line:

```
if (expired) return stepFunction(1);
step *= _speed;
timer += Math.abs(step);
if (firstCycle) {
  if (timer < _delay) return stepFunction(0);
  firstCycle = false;
  timer -= _delay;
}
if (timer >= duration) {
  timer = 0;
  repeated++;
  if (repeated >= _repeat) expired = true;
  else if (_alternate && !!(repeated & 1)) step = 1 - step;
}
return stepFunction(step);
```
with `duration = Math.abs(_speed)`. -/

def timerStep {α : Type*} (p : SpanTimerParams) (f : ℚ → α)
    (s : TimerState) (step : ℚ) : α × TimerState :=
  if s.expired then (f 1, s)
  else
    let duration := jsAbs p.speed
    let step := step * p.speed
    let timer := s.timer + jsAbs step
    if s.firstCycle ∧ timer < p.delay then
      (f 0, { s with timer := timer })
    else
      let timer := if s.firstCycle then timer - p.delay else timer
      if timer ≥ duration then
        let repeated := s.repeated + 1
        if geRepeat repeated p.repeatCount then
          (f step, { timer := 0, repeated := repeated, expired := true,
                     firstCycle := false })
        else
          let step := if p.alternate ∧ repeated % 2 = 1 then 1 - step else step
          (f step, { timer := 0, repeated := repeated, expired := false,
                     firstCycle := false })
      else
        (f step, { timer := timer, repeated := s.repeated, expired := false,
                   firstCycle := false })

/-- Feed a list of incremental steps through the timer wrapper, collecting
the produced values and the final closure state. -/

def runTimer {α : Type*} (p : SpanTimerParams) (f : ℚ → α) :
    TimerState → List ℚ → List α × TimerState
  | s, [] => ([], s)
  | s, st :: rest =>
    let r := timerStep p f s st
    let rec' := runTimer p f r.2 rest
    (r.1 :: rec'.1, rec'.2)

/-! ## `Span.timer` / `Span._stepper` (part_008, lines 500-518 and 621-632)

`Span.timer` computes
`_hasTimer = speed !== 1 || delay !== 0 || repeat !== Infinity || !!alternate`
and `Span._stepper` installs the timer wrapper only when `_hasTimer` holds,
then the noise wrapper only when a noise configuration is present.  Steppers
are modelled at the level of runs: a stepper maps the stream of `step`
arguments to the stream of produced values. -/

/-- `Span.timer`'s `_hasTimer` flag. -/

def SpanTimerParams.hasTimer (p : SpanTimerParams) : Bool :=
  decide (p.speed ≠ 1) || decide (p.delay ≠ 0) || p.repeatCount.isSome
    || p.alternate

/-- The run of a bare base stepper: each call's argument is used directly as
the absolute progress fed to `f`. -/

def baseRun {α : Type*} (f : ℚ → α) : List ℚ → List α :=
  fun steps => steps.map f

/-- The run of `Span._timerWrapper f` from its freshly initialized closure
state. -/

def timerWrapperRun {α : Type*} (p : SpanTimerParams) (f : ℚ → α) :
    List ℚ → List α :=
  fun steps => (runTimer p f TimerState.init steps).1

/-- `Span._stepper`: wrap with the timer iff `_hasTimer`, then with the
noise wrapper iff a noise configuration is present (the noise wrapper
itself, built by `SpanNoise.wrapper`, is kept abstract: the claims only
exercise the no-noise branch). -/

def spanStepper {α : Type*} (p : SpanTimerParams) (f : ℚ → α)
    (noiseWrap : Option ((List ℚ → List α) → (List ℚ → List α))) :
    List ℚ → List α :=
  let stepFn := if p.hasTimer then timerWrapperRun p f else baseRun f
  match noiseWrap with
  | none => stepFn
  | some w => w stepFn

/-! ## Gradient key normalization: `Span.gradient` (part_008, lines 477-498)

```
this._steps = {};
let max: number = 0;
let min: number = Infinity;
const keys = Object.keys(steps)
  .map((val) => { const key = Number(val);
                  max = Math.max(max, key); min = Math.min(min, key);
                  return key; })
  .map((key) => { const value = steps[key];
                  key = (key - min) / (max - min);
                  this._steps[key] = this._convert(value);
                  return key; })
  .sort((a, b) => a - b);
```
Note the accumulator for `max` starts at `0`, not `-Infinity`. -/

/-- JS `Math.max` of two numbers. -/

def jsMax (a b : ℚ) : ℚ := if a ≤ b then b else a

/-- JS `Math.min` of two numbers. -/

def jsMin (a b : ℚ) : ℚ := if a ≤ b then a else b

/-- `let max = 0; for key: max = Math.max(max, key)` — the accumulator
starts at `0` exactly as in the source. -/

def gradientMaxKey (keys : List ℚ) : ℚ := keys.foldl jsMax 0

/-- `let min = Infinity; for key: min = Math.min(min, key)`; `none` models
the initial `Infinity` (for a nonempty key list the result is the true
minimum). -/

def gradientMinKey (keys : List ℚ) : Option ℚ :=
  keys.foldl
    (fun acc k => some (match acc with | none => k | some a => jsMin a k))
    none

/-- The sorted list of normalized gradient keys together with the rebuilt
`_steps` table (normalized key ↦ converted value), as computed by
`Span.gradient`. -/

def gradientNormalize {α : Type*} (steps : List (ℚ × α)) :
    List ℚ × List (ℚ × α) :=
  let keys := steps.map Prod.fst
  match gradientMinKey keys with
  | none => ([], [])
  | some mn =>
    let mx := gradientMaxKey keys
    ((steps.map (fun kv => (kv.1 - mn) / (mx - mn))).mergeSort
        (fun a b => a ≤ b),
      steps.map (fun kv => ((kv.1 - mn) / (mx - mn), kv.2)))

/-- The sorted normalized key list alone. -/

def gradientNormalizeKeys (keys : List ℚ) : List ℚ :=
  (gradientNormalize (keys.map (fun k => (k, ())))).1

/-! ## Gradient resolver: `gradientVectorLerp` and
`gradientSubRangeLerpParams` (src/lib/utils)

The value type is modelled as a 2-component vector over `ℚ`; three.js
`lerp` is componentwise `x + (v.x - x) * alpha`.  `Option` models the JS
`undefined` produced by out-of-table lookups. -/

/-- A two-component value (standing for three.js `Vector2`). -/

structure Vec2 where
  x : ℚ
  y : ℚ
deriving DecidableEq, Repr

/-- three.js `Vector2.lerp(v, alpha)`, componentwise
`this.x += (v.x - this.x) * alpha`. -/

def Vec2.lerp (a b : Vec2) (t : ℚ) : Vec2 :=
  ⟨a.x + (b.x - a.x) * t, a.y + (b.y - a.y) * t⟩

/-- Lookup in a JS `Record<number, T>` modelled as an association list:
first entry with an exactly equal key. -/

def lookupKey {α : Type*} (steps : List (ℚ × α)) (k : ℚ) : Option α :=
  match steps with
  | [] => none
  | (k', v) :: rest => if k' = k then some v else lookupKey rest k

/-- `gradientSubRangeLerpParams`'s scan
`for (i = 0; i < keys.length - 1; i++) if (step >= keys[i] && step <= keys[i+1]) ...`:
the consecutive pairs are `keys.zip keys.tail`, and the LAST matching
segment wins.  `none` models the JS `let lowerKey!` left undefined when no
segment matches. -/

def gradientSubRange (keys : List ℚ) (step : ℚ) : Option (ℚ × ℚ) :=
  (keys.zip keys.tail).foldl
    (fun acc kv =>
      if kv.1 ≤ step ∧ step ≤ kv.2 then some (kv.1, kv.2) else acc)
    none

/-- `gradientVectorLerp target steps keys`: clamp below the first key and
above the last key to the corresponding stored value, otherwise locate the
bracketing pair and lerp with `t = (step - lowerKey)/(upperKey - lowerKey)`.
The mutation of `target` is irrelevant to the produced value and is
dropped. -/

def gradientVectorLerp (steps : List (ℚ × Vec2)) (keys : List ℚ)
    (step : ℚ) : Option Vec2 :=
  match keys.head?, keys.getLast? with
  | some firstKey, some lastKey =>
    if step ≤ firstKey then lookupKey steps firstKey
    else if step ≥ lastKey then lookupKey steps lastKey
    else
      match gradientSubRange keys step with
      | some (lo, hi) => do
        let lower ← lookupKey steps lo
        let upper ← lookupKey steps hi
        pure (lower.lerp upper ((step - lo) / (hi - lo)))
      | none => none
  | _, _ => none

/-- The stepper built by `Span.gradient`: normalize and sort the keys,
rebuild the `_steps` table, then resolve via `gradientVectorLerp`. -/

def spanGradient (input : List (ℚ × Vec2)) : ℚ → Option Vec2 :=
  fun step =>
    gradientVectorLerp (gradientNormalize input).2
      (gradientNormalize input).1 step

/-! ## Keyframe curve interpolator: `curveInterpolation` (part_007, lines
87-167)

```
const steps = Object.keys(curve).map(parseFloat).sort((a, b) => a - b);
const values = steps.map((step) => curve![step]);
```
then a shape switch returning one of three closures, each of which clamps
(`x <= firstStep` → `firstValue`, `x >= lastStep` → `lastValue`) and
otherwise locates the segment with `let i = 0; while (x > steps[i + 1]) i++`.
The interpolators are stated over the parallel `steps`/`values` arrays; the
claims assume a nonempty table, for which the `headD`/`getLastD` defaults
are never used. -/

/-- The segment scan `let i = 0; while (x > steps[i + 1]) i++`. -/

def segIdx : List ℚ → ℚ → ℕ
  | _ :: k1 :: rest, x => if x > k1 then segIdx (k1 :: rest) x + 1 else 0
  | _, _ => 0

/-- Build the sorted `steps`/`values` arrays from the curve record. -/

def curveTable (curve : List (ℚ × ℚ)) : List ℚ × List ℚ :=
  let steps := (curve.map Prod.fst).mergeSort (fun a b => a ≤ b)
  (steps, steps.map (fun s => (lookupKey curve s).getD 0))

/-- `staircaseLerp`: clamp, else return `values[i]` for the scanned
segment — no blending. -/

def staircaseLerp (steps values : List ℚ) (x : ℚ) : ℚ :=
  if x ≤ steps.headD 0 then values.headD 0
  else if x ≥ steps.getLastD 0 then values.getLastD 0
  else values.getD (segIdx steps x) 0

/-- `linearInterpolation`: clamp, else `y0 + (y1 - y0) * t` with
`t = (x - x0) / (x1 - x0)` on the scanned segment. -/

def linearInterpolation (steps values : List ℚ) (x : ℚ) : ℚ :=
  if x ≤ steps.headD 0 then values.headD 0
  else if x ≥ steps.getLastD 0 then values.getLastD 0
  else
    let i := segIdx steps x
    let x0 := steps.getD i 0
    let x1 := steps.getD (i + 1) 0
    let y0 := values.getD i 0
    let y1 := values.getD (i + 1) 0
    let t := (x - x0) / (x1 - x0)
    y0 + (y1 - y0) * t

/-- `smoothInterpolation`: clamp, else the cubic Hermite-style blend
`a*y0 + b*y1 + c*(y1-y0)*(x1-x0) + d*(y1-y0)*(x1-x0)` of the source. -/

def smoothInterpolation (steps values : List ℚ) (x : ℚ) : ℚ :=
  if x ≤ steps.headD 0 then values.headD 0
  else if x ≥ steps.getLastD 0 then values.getLastD 0
  else
    let i := segIdx steps x
    let x0 := steps.getD i 0
    let x1 := steps.getD (i + 1) 0
    let y0 := values.getD i 0
    let y1 := values.getD (i + 1) 0
    let t := (x - x0) / (x1 - x0)
    let t2 := t * t
    let t3 := t2 * t
    let a := 2 * t3 - 3 * t2 + 1
    let b := -2 * t3 + 3 * t2
    let c := t3 - 2 * t2 + t
    let d := t3 - t2
    a * y0 + b * y1 + c * (y1 - y0) * (x1 - x0) + d * (y1 - y0) * (x1 - x0)

/-- The shape switch of `curveInterpolation`; note the `default:` branch
returns the staircase interpolator for ANY shape other than `"smooth"` and
`"linear"`. -/

def curveInterpolation (curve : List (ℚ × ℚ)) (curveShape : String) :
    ℚ → ℚ :=
  let t := curveTable curve
  match curveShape with
  | "smooth" => smoothInterpolation t.1 t.2
  | "linear" => linearInterpolation t.1 t.2
  | _ => staircaseLerp t.1 t.2

/-! ## Array picker: `arrayPick` (src/lib/utils/arrayPick.ts)

```
let length = array.length;
let step: number = 0;
switch (pick) {
  case "random": picker = () => array[Math.floor(Math.random() * length)];
  case "repeat": picker = () => array[step++ % length];
  default:       length -= 1;
                 picker = () => array[pingpong(step++, length)];
}
```
The closure counter `step` advances once per call, so call `n` (0-based)
uses counter value `n`.  `Option` models the JS `undefined` of an
out-of-range index.  `rand` is an oracle for the `Math.floor(Math.random()
* length)` draw of each call.  (For a single-element array the JS
`pingpong` divides by zero and yields `NaN`; the claims only exercise
arrays of length ≥ 2, where the model is exact.) -/

/-- three.js `MathUtils.pingpong(x, L) = L - |euclideanModulo(x, 2L) - L|`
at natural arguments (`natAbs` is the absolute value; the truncated `ℕ`
subtraction is exact because `|x % 2L - L| ≤ L`). -/

def pingpong (x L : ℕ) : ℕ :=
  L - (((x : ℤ) % (2 * (L : ℤ))) - (L : ℤ)).natAbs

/-- The value produced by the `arrayPick` closure on its `n`-th call. -/

def arrayPickAt {α : Type*} (arr : List α) (pick : String) (rand : ℕ → ℕ)
    (n : ℕ) : Option α :=
  match pick with
  | "random" => arr.get? (rand n)
  | "repeat" => arr.get? (n % arr.length)
  | _ => arr.get? (pingpong n (arr.length - 1))

/-- The first `k` values produced by the `arrayPick` closure. -/

def arrayPickRun {α : Type*} (arr : List α) (pick : String) (rand : ℕ → ℕ)
    (k : ℕ) : List (Option α) :=
  (List.range k).map (arrayPickAt arr pick rand)

/-! ## Configuration-time validation (C9)

The sources perform no validation at configuration time.  The
`curveInterpolation` shape switch sends every shape other than `"smooth"`
and `"linear"` — including unknown names — to the staircase interpolator;
the `arrayPick` switch sends every pick other than `"random"` and
`"repeat"` to the alternate (ping-pong) picker.  The documented defaults
apply only through default parameter values / `||`-defaults when the field
is absent. -/

/-- `Span.array`'s `this._pick = pick || "random"` for an absent `pick`. -/

def pickOrDefault : Option String → String
  | none => "random"
  | some p => p

/-- `Span.curve`'s default parameter `curveShape = "smooth"` (and
`this._curveShape = curveShape || "smooth"`). -/

def shapeOrDefault : Option String → String
  | none => "smooth"
  | some p => p

/-- `Span.lerp`'s default parameter `easing = "linear"`. -/

def easingOrDefault : Option String → String
  | none => "linear"
  | some p => p

/-! ## Scalar lerp path and `forceInteger`

`Span.lerp` calls `_bound(start, end, forceInteger)` which stores the flag
(`this.forceInteger = forceInteger`, part_008 line 674), then installs
`this._lerp(easings[easing])`.  `ScalarSpan._lerp` (part_000 lines 78-81)
is `(scale) => _value.lerpScalars(_start, _end, easing(scale))` and
`Scalar.lerpScalars` (part_002 lines 65-68) is plain
`MathUtils.lerp(s1.value, s2.value, alpha)` — the stored `forceInteger`
flag is never consulted on any step path (it is only serialized by
`toJSON`).  The rounding helper `lerpScalar` (part_006 lines 29-37) exists
but is never imported anywhere in the repository. -/

/-- three.js `MathUtils.lerp(x, y, t) = x + (y - x) * t`. -/

def mathUtilsLerp (x y t : ℚ) : ℚ := x + (y - x) * t

/-- The stepper installed by a scalar `lerp` configuration: the
`forceInteger` argument is accepted and stored but never used by the step
path. -/

def scalarSpanLerpStep (start stop : ℚ) (easing : ℚ → ℚ)
    (forceInteger : Bool) (scale : ℚ) : ℚ :=
  mathUtilsLerp start stop (easing scale)

/-- The dead helper `lerpScalar` (exported from part_006, imported
nowhere): rounds iff `forceInteger`.  JS `Math.round` (half toward `+∞`)
is `round` on `ℚ`. -/

def lerpScalar (lo hi scale : ℚ) (forceInteger : Bool) : ℚ :=
  let value := mathUtilsLerp lo hi scale
  if forceInteger then round value else value

/-! ## Easing table: `easings` (src/lib/types.ts part, lines 179-288)

JS numbers are modelled as `ℝ` here because the table uses `Math.cos`,
`Math.sin`, `Math.sqrt` and real-exponent `Math.pow`.  Each entry is
transcribed literally (including the `value /= 0.5`, `value -= 2`
mutations, written as `let` rebindings, and the `value === 0` /
`value === 1` guards of the `expo` family). -/

noncomputable section

namespace easings

def linear (v : ℝ) : ℝ := v

def quadIn (v : ℝ) : ℝ := v ^ (2 : ℕ)

def quadOut (v : ℝ) : ℝ := -((v - 1) ^ (2 : ℕ) - 1)

def quadInOut (v : ℝ) : ℝ :=
  let v := v / 0.5
  if v < 1 then 0.5 * v ^ (2 : ℕ)
  else
    let v := v - 2;
    -0.5 * (v * v - 2)

def cubicIn (v : ℝ) : ℝ := v ^ (3 : ℕ)

def cubicOut (v : ℝ) : ℝ := (v - 1) ^ (3 : ℕ) + 1

def cubicInOut (v : ℝ) : ℝ :=
  let v := v / 0.5
  if v < 1 then 0.5 * v ^ (3 : ℕ)
  else 0.5 * ((v - 2) ^ (3 : ℕ) + 2)

def quartIn (v : ℝ) : ℝ := v ^ (4 : ℕ)

def quartOut (v : ℝ) : ℝ := -((v - 1) ^ (4 : ℕ) - 1)

def quartInOut (v : ℝ) : ℝ :=
  let v := v / 0.5
  if v < 1 then 0.5 * v ^ (4 : ℕ)
  else
    let v := v - 2;
    -0.5 * (v * v ^ (3 : ℕ) - 2)

def sineIn (v : ℝ) : ℝ := -Real.cos (v * (Real.pi / 2)) + 1

def sineOut (v : ℝ) : ℝ := Real.sin (v * (Real.pi / 2))

def sineInOut (v : ℝ) : ℝ := -0.5 * (Real.cos (Real.pi * v) - 1)

def expoIn (v : ℝ) : ℝ := if v = 0 then 0 else (2 : ℝ) ^ (10 * (v - 1))

def expoOut (v : ℝ) : ℝ := if v = 1 then 1 else -(2 : ℝ) ^ (-10 * v) + 1

def expoInOut (v : ℝ) : ℝ :=
  if v = 0 then 0
  else if v = 1 then 1
  else
    let v := v / 0.5
    if v < 1 then 0.5 * (2 : ℝ) ^ (10 * (v - 1))
    else 0.5 * (-(2 : ℝ) ^ (-10 * (v - 1)) + 2)

def circIn (v : ℝ) : ℝ := -(Real.sqrt (1 - v * v) - 1)

def circOut (v : ℝ) : ℝ := Real.sqrt (1 - (v - 1) ^ (2 : ℕ))

def circInOut (v : ℝ) : ℝ :=
  let v := v / 0.5
  if v < 1 then -0.5 * (Real.sqrt (1 - v * v) - 1)
  else
    let v := v - 2;
    0.5 * (Real.sqrt (1 - v * v) + 1)

def backIn (v : ℝ) : ℝ := v * v * ((1.70158 + 1) * v - 1.70158)

def backOut (v : ℝ) : ℝ :=
  let v := v - 1;
  v * v * ((1.70158 + 1) * v + 1.70158) + 1

def backInOut (v : ℝ) : ℝ :=
  let s : ℝ := 1.70158 * 1.525
  let v := v / 0.5
  if v < 1 then 0.5 * (v * v * ((s + 1) * v - s))
  else
    let v := v - 2;
    0.5 * (v * v * ((s + 1) * v + s) + 2)

end easings

/-- The full easing table, name → function, in source order. -/

def easingTable : List (String × (ℝ → ℝ)) :=
  [("linear", easings.linear),
   ("quadIn", easings.quadIn),
   ("quadOut", easings.quadOut),
   ("quadInOut", easings.quadInOut),
   ("cubicIn", easings.cubicIn),
   ("cubicOut", easings.cubicOut),
   ("cubicInOut", easings.cubicInOut),
   ("quartIn", easings.quartIn),
   ("quartOut", easings.quartOut),
   ("quartInOut", easings.quartInOut),
   ("sineIn", easings.sineIn),
   ("sineOut", easings.sineOut),
   ("sineInOut", easings.sineInOut),
   ("expoIn", easings.expoIn),
   ("expoOut", easings.expoOut),
   ("expoInOut", easings.expoInOut),
   ("circIn", easings.circIn),
   ("circOut", easings.circOut),
   ("circInOut", easings.circInOut),
   ("backIn", easings.backIn),
   ("backOut", easings.backOut),
   ("backInOut", easings.backInOut)]

/-- `Span._lerp`'s stepper, per component: three.js
`lerpVectors(v1, v2, alpha)` sets `v1 + (v2 - v1) * alpha` on each
component, with `alpha = easing(scale)`; `MathUtils.lerp` (the scalar
path) is the same formula. -/

def spanLerpStep (start stop : ℝ) (easing : ℝ → ℝ) (scale : ℝ) : ℝ :=
  start + (stop - start) * easing scale

end

theorem jsAbs_eq_abs (q : ℚ) : jsAbs q = |q| := by
  unfold jsAbs
  rcases lt_or_le q 0 with h | h
  · simp [h, abs_of_neg h]
  · simp [not_lt.mpr h, abs_of_nonneg h]

/-- Helper: once `expired` is set, every call returns `f 1` and leaves the
closure state untouched (`if (expired) return stepFunction(1)`). -/

theorem timerStep_expired {α : Type*} (p : SpanTimerParams) (f : ℚ → α)
    (s : TimerState) (h : s.expired = true) (st : ℚ) :
    timerStep p f s st = (f 1, s) := by
  simp [timerStep, h]

/-- Helper: an expired wrapper maps every further input list to a constant
`f 1` output stream without changing state. -/

theorem runTimer_expired {α : Type*} (p : SpanTimerParams) (f : ℚ → α)
    (s : TimerState) (h : s.expired = true) (steps : List ℚ) :
    runTimer p f s steps = (steps.map (fun _ => f 1), s) := by
  induction steps with
  | nil => simp [runTimer]
  | cons st rest ih => simp [runTimer, timerStep_expired p f s h st, ih]

/-- C1 counterexample: with `delay = 2, repeat = 3, alternate = true,
speed = 1` and the base stepper `f = id`, feeding unit steps, the second
call already returns `f 1 = 1`, not `f 0 = 0`: the first TWO unit steps do
not both produce `f 0` (the second call reaches `timer = 2`, which is not
`< delay`, so the delay window is over and the raw scaled step `1` is fed
to `f`). -/

theorem timer_first_two_steps_counterexample :
    (runTimer ⟨1, 2, some 3, true⟩ (fun q => q) TimerState.init [1, 1]).1
      = [0, 1] ∧ (1 : ℚ) ≠ 0 := by
  norm_num [runTimer, timerStep, TimerState.init, jsAbs, geRepeat]

/-- C1 (amended): with `delay = 2, repeat = 3, alternate = true, speed = 1`
around any base stepper `f`, feeding unit steps: only the FIRST unit step
produces `f 0` (the delay window is `timer < delay`); the second returns
`f 1`; the third call completes cycle 1 (odd) and `alternate` reverses the
effective progress to `1 - 1 = 0`; the fifth call completes cycle 3,
reaching `repeat = 3`, after which the output is frozen at `f 1` forever
(every call on an expired state returns `f 1` and leaves the state
unchanged). -/

theorem timer_delay_repeat_alternate_trace {α : Type*} (f : ℚ → α) :
    (runTimer ⟨1, 2, some 3, true⟩ f TimerState.init
        [1, 1, 1, 1, 1, 1, 1]).1 = [f 0, f 1, f 0, f 1, f 1, f 1, f 1]
    ∧ (runTimer ⟨1, 2, some 3, true⟩ f TimerState.init
        [1, 1, 1, 1, 1]).2.expired = true
    ∧ (∀ s : TimerState, s.expired = true → ∀ steps : List ℚ,
        (runTimer ⟨1, 2, some 3, true⟩ f s steps).1
          = steps.map (fun _ => f 1)) := by
  refine ⟨?_, ?_, ?_⟩
  · norm_num [runTimer, timerStep, TimerState.init, jsAbs, geRepeat]
  · norm_num [runTimer, timerStep, TimerState.init, jsAbs, geRepeat]
  · intro s h steps
    rw [runTimer_expired _ f s h steps]

/-- Witness for `timer_delay_repeat_alternate_trace` at the concrete base
stepper `f q = q + 10` and, for the expiry clause, the concrete expired
state and input list `[5, 7]`. -/

theorem timer_delay_repeat_alternate_trace_witness :
    (runTimer ⟨1, 2, some 3, true⟩ (fun q : ℚ => q + 10) TimerState.init
        [1, 1, 1, 1, 1, 1, 1]).1 = [10, 11, 10, 11, 11, 11, 11]
    ∧ (runTimer ⟨1, 2, some 3, true⟩ (fun q : ℚ => q + 10)
        ⟨0, 3, true, false⟩ [5, 7]).1 = [11, 11] := by
  obtain ⟨h1, _, h3⟩ :=
    timer_delay_repeat_alternate_trace (fun q : ℚ => q + 10)
  constructor
  · rw [h1]; norm_num
  · rw [h3 ⟨0, 3, true, false⟩ rfl [5, 7]]; norm_num

/-- C6: (i) an expired timer wrapper returns `f 1` on every subsequent call
forever, advancing neither the timer nor the cycle count (the closure state
is returned unchanged); (ii) whenever a call completes a cycle (accumulated
timer reaches `duration = |speed|` after the delay has been consumed) and
the incremented cycle count reaches `repeat`, the wrapper becomes expired;
(iii) with `repeat = 0`, any completed cycle — in particular the very
first — satisfies that condition, so it expires immediately. -/

theorem timer_expiry_terminal :
    (∀ {α : Type} (p : SpanTimerParams) (f : ℚ → α) (s : TimerState)
        (steps : List ℚ), s.expired = true →
        (runTimer p f s steps).1 = steps.map (fun _ => f 1)
          ∧ (runTimer p f s steps).2 = s)
    ∧ (∀ {α : Type} (p : SpanTimerParams) (f : ℚ → α) (s : TimerState)
        (st : ℚ), s.expired = false → s.firstCycle = false →
        s.timer + jsAbs (st * p.speed) ≥ jsAbs p.speed →
        geRepeat (s.repeated + 1) p.repeatCount = true →
        (timerStep p f s st).2.expired = true)
    ∧ (∀ r : ℕ, geRepeat (r + 1) (some 0) = true) := by
  refine ⟨?_, ?_, ?_⟩
  · intro α p f s steps h
    rw [runTimer_expired p f s h steps]
    exact ⟨rfl, rfl⟩
  · intro α p f s st hexp hfc htimer hrep
    simp [timerStep, hexp, hfc, htimer, hrep]
  · intro r
    simp [geRepeat]
    positivity

/-- Witness for `timer_expiry_terminal`: concrete expired state, and a
concrete completing call with `repeat = 0` expiring on the very first
completed cycle. -/

theorem timer_expiry_terminal_witness :
    ((runTimer ⟨1, 0, some 2, false⟩ (fun q : ℚ => q) ⟨0, 2, true, false⟩
        [4, 9]).1 = [1, 1]
      ∧ (runTimer ⟨1, 0, some 2, false⟩ (fun q : ℚ => q) ⟨0, 2, true, false⟩
        [4, 9]).2 = ⟨0, 2, true, false⟩)
    ∧ (timerStep ⟨1, 0, some 0, false⟩ (fun q : ℚ => q)
        ⟨0, 0, false, false⟩ 1).2.expired = true := by
  constructor
  · exact timer_expiry_terminal.1 ⟨1, 0, some 2, false⟩ (fun q : ℚ => q)
      ⟨0, 2, true, false⟩ [4, 9] rfl
  · refine timer_expiry_terminal.2.1 ⟨1, 0, some 0, false⟩ (fun q : ℚ => q)
      ⟨0, 0, false, false⟩ 1 rfl rfl ?_ ?_
    · norm_num [jsAbs]
    · norm_num [geRepeat]

/-- C10: with all temporal parameters at their defaults
(`speed = 1, delay = 0, repeat = Infinity, alternate = false`) and no
noise, `_hasTimer` is false, no timer wrapper is installed, and the
installed step function is exactly the bare base stepper: every argument
is used directly as absolute progress (`steps.map f`), with no hidden
timer/delay/repeat/alternate state. -/

theorem default_timer_stepper_is_base {α : Type*} (f : ℚ → α) :
    SpanTimerParams.hasTimer ⟨1, 0, none, false⟩ = false
    ∧ spanStepper ⟨1, 0, none, false⟩ f none = baseRun f
    ∧ ∀ steps : List ℚ,
        spanStepper ⟨1, 0, none, false⟩ f none steps = steps.map f := by
  have h : SpanTimerParams.hasTimer ⟨1, 0, none, false⟩ = false := by
    simp [SpanTimerParams.hasTimer]
  refine ⟨h, ?_, ?_⟩
  · simp [spanStepper, h]
  · intro steps
    simp [spanStepper, h, baseRun]

/-- C2 evaluated at the failing input: because the running maximum starts
at `0` instead of `-Infinity`, an all-negative key set `{-10, -5}` is
normalized against `max = 0`: the keys become `[0, 1/2]`, so the largest
supplied key `-5` maps to `1/2`, not `1`.  On a key set containing a
nonnegative key (e.g. `{10, 30}`) the normalization behaves as the claim
states, mapping the extremes to `[0, 1]`. -/

theorem gradient_normalize_all_negative_keys :
    gradientNormalizeKeys [-10, -5] = [0, 1/2]
    ∧ ((1 : ℚ)/2) ≠ 1
    ∧ gradientNormalizeKeys [10, 30] = [0, 1] := by
  refine ⟨?_, by norm_num, ?_⟩ <;>
    norm_num [gradientNormalizeKeys, gradientNormalize, gradientMinKey,
      gradientMaxKey, jsMin, jsMax, List.mergeSort]

/-- C5: for the gradient built from keys `{0: A, 0.5: B, 1: C}`, the
stepper returns `A` at 0, `C` at 1, the componentwise linear midpoint of
`A` and `B` at 0.25, and clamps to `A` below the first key and to `C`
above the last key. -/

theorem gradient_clamp_and_midpoint (A B C : Vec2) :
    spanGradient [(0, A), (1/2, B), (1, C)] 0 = some A
    ∧ spanGradient [(0, A), (1/2, B), (1, C)] 1 = some C
    ∧ spanGradient [(0, A), (1/2, B), (1, C)] (1/4)
        = some ⟨(A.x + B.x) / 2, (A.y + B.y) / 2⟩
    ∧ spanGradient [(0, A), (1/2, B), (1, C)] (-1) = some A
    ∧ spanGradient [(0, A), (1/2, B), (1, C)] 2 = some C := by
  have hnorm : gradientNormalize [(0, A), (1/2, B), (1, C)]
      = ([0, 1/2, 1], [(0, A), (1/2, B), (1, C)]) := by
    norm_num [gradientNormalize, gradientMinKey, gradientMaxKey, jsMin,
      jsMax, List.mergeSort]
  refine ⟨?_, ?_, ?_, ?_, ?_⟩ <;>
    · simp only [spanGradient, hnorm]
      norm_num [gradientVectorLerp, gradientSubRange, lookupKey, Vec2.lerp]
      try constructor <;> try ring

/-- Helper: entries of a `(· < ·)`-pairwise list are monotone in the
index. -/

theorem pairwise_getD_le (steps : List ℚ) (hs : steps.Pairwise (· < ·))
    {i j : ℕ} (hij : i ≤ j) (hj : j < steps.length) :
    steps.getD i 0 ≤ steps.getD j 0 := by
  rcases eq_or_lt_of_le hij with rfl | hlt
  · exact le_refl _
  · have hi : i < steps.length := lt_trans hlt hj
    rw [steps.getD_eq_getElem 0 hi, steps.getD_eq_getElem 0 hj]
    exact le_of_lt (List.pairwise_iff_get.mp hs ⟨i, hi⟩ ⟨j, hj⟩ hlt)

/-- Helper: the scan finds exactly the bracketing segment: if
`steps[i] < x ≤ steps[i+1]` in a strictly sorted list then
`segIdx steps x = i`. -/

theorem segIdx_eq (steps : List ℚ) (x : ℚ) (i : ℕ)
    (hs : steps.Pairwise (· < ·)) (hi : i + 1 < steps.length)
    (hlo : steps.getD i 0 < x) (hhi : x ≤ steps.getD (i + 1) 0) :
    segIdx steps x = i := by
  induction i generalizing steps with
  | zero =>
    match steps, hi with
    | k0 :: k1 :: rest, _ =>
      have : ¬ (x > k1) := not_lt.mpr hhi
      simp [segIdx, this]
  | succ j ih =>
    match steps, hi with
    | k0 :: k1 :: rest, hi =>
      have hlen : j + 1 < (k1 :: rest).length := by
        simpa using Nat.lt_of_succ_lt_succ hi
      have htail : (k1 :: rest).Pairwise (· < ·) := hs.of_cons
      have hlo' : (k1 :: rest).getD j 0 < x := hlo
      have hhi' : x ≤ (k1 :: rest).getD (j + 1) 0 := hhi
      have hk1 : k1 ≤ (k1 :: rest).getD j 0 := by
        have := pairwise_getD_le (k1 :: rest) htail (Nat.zero_le j)
          (Nat.lt_of_succ_lt hlen)
        simpa using this
      have hgt : x > k1 := lt_of_le_of_lt hk1 hlo'
      simp only [segIdx, if_pos hgt]
      exact congrArg (· + 1) (ih (k1 :: rest) htail hlen hlo' hhi')

/-- Helper: strict version of `pairwise_getD_le`. -/

theorem pairwise_getD_lt (steps : List ℚ) (hs : steps.Pairwise (· < ·))
    {i j : ℕ} (hij : i < j) (hj : j < steps.length) :
    steps.getD i 0 < steps.getD j 0 := by
  have hi : i < steps.length := lt_trans hij hj
  rw [steps.getD_eq_getElem 0 hi, steps.getD_eq_getElem 0 hj]
  exact List.pairwise_iff_get.mp hs ⟨i, hi⟩ ⟨j, hj⟩ hij

/-- Helper: `headD` is the entry at index 0. -/

theorem headD_eq_getD (l : List ℚ) (d : ℚ) : l.headD d = l.getD 0 d := by
  cases l <;> simp

/-- Helper: `getLastD` is the entry at index `length - 1`. -/

theorem getLastD_eq_getD (l : List ℚ) (d : ℚ) :
    l.getLastD d = l.getD (l.length - 1) d := by
  simp [List.getLastD_eq_getLast?, List.getLast?_eq_get?,
    List.getD_eq_getD_get?]

/-- Helper: an `x` strictly above some entry is not caught by the
`x <= firstStep` clamp. -/

theorem not_le_head (steps : List ℚ) (hs : steps.Pairwise (· < ·)) {i : ℕ}
    (hi : i < steps.length) {x : ℚ} (h : steps.getD i 0 < x) :
    ¬ (x ≤ steps.headD 0) := by
  rw [headD_eq_getD]
  exact not_le.mpr (lt_of_le_of_lt (pairwise_getD_le steps hs (Nat.zero_le i) hi) h)

/-- Helper: an `x` strictly below some entry is not caught by the
`x >= lastStep` clamp. -/

theorem not_ge_last (steps : List ℚ) (hs : steps.Pairwise (· < ·)) {i : ℕ}
    (hi : i < steps.length) {x : ℚ} (h : x < steps.getD i 0) :
    ¬ (x ≥ steps.getLastD 0) := by
  rw [getLastD_eq_getD]
  refine not_le.mpr (lt_of_lt_of_le h ?_)
  exact pairwise_getD_le steps hs (by omega) (by omega)

/-- Helper: staircase interpolation on the open interior of a segment. -/

theorem staircase_open_seg (steps values : List ℚ) (x : ℚ) (i : ℕ)
    (hs : steps.Pairwise (· < ·)) (hi : i + 1 < steps.length)
    (hlo : steps.getD i 0 < x) (hhi : x < steps.getD (i + 1) 0) :
    staircaseLerp steps values x = values.getD i 0 := by
  have h1 := not_le_head steps hs (Nat.lt_of_succ_lt hi) hlo
  have h2 := not_ge_last steps hs hi hhi
  rw [staircaseLerp, if_neg h1, if_neg h2,
    segIdx_eq steps x i hs hi hlo (le_of_lt hhi)]

/-- Helper: staircase interpolation AT an interior key returns the value of
the PRECEDING key (the scanned segment is `[steps[j-1], steps[j]]`). -/

theorem staircase_at_interior_key (steps values : List ℚ) (j : ℕ)
    (hs : steps.Pairwise (· < ·)) (h1 : 1 ≤ j) (hj : j + 1 < steps.length) :
    staircaseLerp steps values (steps.getD j 0) = values.getD (j - 1) 0 := by
  obtain ⟨k, rfl⟩ : ∃ k, j = k + 1 := ⟨j - 1, by omega⟩
  have h0 : (0 : ℕ) < steps.length := by omega
  have hk1 : k + 1 < steps.length := by omega
  have hk2 : k + 2 < steps.length := by omega
  have hlt : steps.getD k 0 < steps.getD (k + 1) 0 :=
    pairwise_getD_lt steps hs (Nat.lt_succ_self k) hk1
  have hc1 := not_le_head steps hs h0
    (pairwise_getD_lt steps hs (Nat.succ_pos k) hk1)
  have hc2 := not_ge_last steps hs hk2
    (pairwise_getD_lt steps hs (Nat.lt_succ_self (k + 1)) hk2)
  rw [staircaseLerp, if_neg hc1, if_neg hc2,
    segIdx_eq steps _ k hs (by omega) hlt (le_refl _)]
  simp

/-- Helper: linear interpolation strictly inside a segment is exactly the
affine blend of the bracketing values. -/

theorem linear_formula (steps values : List ℚ) (x : ℚ) (i : ℕ)
    (hs : steps.Pairwise (· < ·)) (hi : i + 1 < steps.length)
    (hlo : steps.getD i 0 < x) (hhi : x < steps.getD (i + 1) 0) :
    linearInterpolation steps values x
      = values.getD i 0 + (values.getD (i + 1) 0 - values.getD i 0)
          * ((x - steps.getD i 0) / (steps.getD (i + 1) 0 - steps.getD i 0)) := by
  have h1 := not_le_head steps hs (Nat.lt_of_succ_lt hi) hlo
  have h2 := not_ge_last steps hs hi hhi
  rw [linearInterpolation, if_neg h1, if_neg h2]
  simp only [segIdx_eq steps x i hs hi hlo (le_of_lt hhi)]

/-- Helper: smooth (Hermite-style) interpolation evaluated exactly at a
key returns that key's value. -/

theorem smooth_at_key (steps values : List ℚ) (j : ℕ)
    (hs : steps.Pairwise (· < ·)) (hv : values.length = steps.length)
    (hj : j < steps.length) :
    smoothInterpolation steps values (steps.getD j 0) = values.getD j 0 := by
  rcases Nat.eq_zero_or_pos j with rfl | hj0
  · rw [smoothInterpolation, if_pos (by rw [headD_eq_getD])]
    rw [headD_eq_getD]
  · rcases eq_or_lt_of_le (Nat.succ_le_of_lt hj) with hlast | hinter
    · -- j is the last index: the `x >= lastStep` clamp fires
      have h0 : (0 : ℕ) < steps.length := Nat.pos_of_ne_zero (by omega)
      have hnotle := not_le_head steps hs h0
        (pairwise_getD_lt steps hs hj0 hj)
      have hlen1 : steps.length - 1 = j := by omega
      rw [smoothInterpolation, if_neg hnotle, if_pos (by
        rw [getLastD_eq_getD, hlen1])]
      rw [getLastD_eq_getD, hv, hlen1]
    · -- interior key: scanned segment is [steps[j-1], steps[j]], t = 1
      obtain ⟨k, rfl⟩ : ∃ k, j = k + 1 := ⟨j - 1, by omega⟩
      have h0 : (0 : ℕ) < steps.length := by omega
      have hk1 : k + 1 < steps.length := by omega
      have hk2 : k + 2 < steps.length := by omega
      have hlt : steps.getD k 0 < steps.getD (k + 1) 0 :=
        pairwise_getD_lt steps hs (Nat.lt_succ_self k) hk1
      have hc1 := not_le_head steps hs h0
        (pairwise_getD_lt steps hs (Nat.succ_pos k) hk1)
      have hc2 := not_ge_last steps hs hk2
        (pairwise_getD_lt steps hs (Nat.lt_succ_self (k + 1)) hk2)
      rw [smoothInterpolation, if_neg hc1, if_neg hc2]
      simp only [segIdx_eq steps _ k hs (by omega) hlt (le_refl _)]
      have hne : steps.getD (k + 1) 0 - steps.getD k 0 ≠ 0 :=
        sub_ne_zero.mpr (ne_of_gt hlt)
      rw [div_self hne]
      ring

/-- C4 counterexample: through the full `curveInterpolation` build on the
curve `{0: 3, 0.5: 7, 1: 9}` with shape `staircase`, evaluation at the
interior key `x = 0.5` returns `3` — the value of the PRECEDING key — and
not the listed value `7` that the claim's half-open interval
`[key_i, key_{i+1})` requires at `x = key_1 = 0.5`. -/

theorem curve_staircase_counterexample :
    curveInterpolation [(0, 3), (1/2, 7), (1, 9)] "staircase" (1/2) = 3
    ∧ (3 : ℚ) ≠ 7 := by
  constructor
  · have harm : curveInterpolation [(0, 3), (1/2, 7), (1, 9)] "staircase"
        = staircaseLerp (curveTable [(0, 3), (1/2, 7), (1, 9)]).1
            (curveTable [(0, 3), (1/2, 7), (1, 9)]).2 := rfl
    rw [harm]
    norm_num [curveTable, lookupKey, List.mergeSort, staircaseLerp, segIdx]
  · norm_num

/-- C4 (amended): over any strictly sorted key table with parallel values:
`staircase` yields `y_i` on the OPEN interval `(key_i, key_{i+1})`, but at
an interior key `x = key_j` it yields `y_{j-1}` (the step switches after
the key: the effective intervals are left-open `(key_i, key_{i+1}]`, except
that the first and last keys clamp); `linear` is exactly
`y0 + (y1 - y0) * (x - x0) / (x1 - x0)` strictly between consecutive keys;
`smooth` returns exactly the keyed value at every key. -/

theorem curve_shapes_amended :
    (∀ (steps values : List ℚ) (x : ℚ) (i : ℕ),
        steps.Pairwise (· < ·) → i + 1 < steps.length →
        steps.getD i 0 < x → x < steps.getD (i + 1) 0 →
        staircaseLerp steps values x = values.getD i 0)
    ∧ (∀ (steps values : List ℚ) (j : ℕ),
        steps.Pairwise (· < ·) → 1 ≤ j → j + 1 < steps.length →
        staircaseLerp steps values (steps.getD j 0) = values.getD (j - 1) 0)
    ∧ (∀ (steps values : List ℚ) (x : ℚ) (i : ℕ),
        steps.Pairwise (· < ·) → i + 1 < steps.length →
        steps.getD i 0 < x → x < steps.getD (i + 1) 0 →
        linearInterpolation steps values x
          = values.getD i 0 + (values.getD (i + 1) 0 - values.getD i 0)
              * ((x - steps.getD i 0)
                  / (steps.getD (i + 1) 0 - steps.getD i 0)))
    ∧ (∀ (steps values : List ℚ) (j : ℕ),
        steps.Pairwise (· < ·) → values.length = steps.length →
        j < steps.length →
        smoothInterpolation steps values (steps.getD j 0)
          = values.getD j 0) :=
  ⟨fun s v x i hs hi hlo hhi => staircase_open_seg s v x i hs hi hlo hhi,
   fun s v j hs h1 hj => staircase_at_interior_key s v j hs h1 hj,
   fun s v x i hs hi hlo hhi => linear_formula s v x i hs hi hlo hhi,
   fun s v j hs hv hj => smooth_at_key s v j hs hv hj⟩

/-- Witness for `curve_shapes_amended` on the table
`steps = [0, 1/2, 1]`, `values = [3, 7, 9]`. -/

theorem curve_shapes_amended_witness :
    staircaseLerp [0, 1/2, 1] [3, 7, 9] (1/4) = 3
    ∧ staircaseLerp [0, 1/2, 1] [3, 7, 9] (1/2) = 3
    ∧ linearInterpolation [0, 1/2, 1] [3, 7, 9] (1/4) = 5
    ∧ smoothInterpolation [0, 1/2, 1] [3, 7, 9] (1/2) = 7 := by
  have hp : ([0, 1/2, 1] : List ℚ).Pairwise (· < ·) := by
    norm_num [List.pairwise_cons]
  obtain ⟨hst, hkey, hlin, hsm⟩ := curve_shapes_amended
  refine ⟨?_, ?_, ?_, ?_⟩
  · have := hst [0, 1/2, 1] [3, 7, 9] (1/4) 0 hp (by norm_num)
      (by norm_num) (by norm_num)
    simpa using this
  · have := hkey [0, 1/2, 1] [3, 7, 9] 1 hp (by norm_num) (by norm_num)
    have h12 : ([0, 1/2, 1] : List ℚ).getD 1 0 = 1/2 := by norm_num
    rw [h12] at this
    simpa using this
  · have := hlin [0, 1/2, 1] [3, 7, 9] (1/4) 0 hp (by norm_num)
      (by norm_num) (by norm_num)
    rw [this]
    norm_num
  · have := hsm [0, 1/2, 1] [3, 7, 9] 1 hp (by norm_num) (by norm_num)
    have h12 : ([0, 1/2, 1] : List ℚ).getD 1 0 = 1/2 := by norm_num
    rw [h12] at this
    simpa using this

/-- Helper: `pingpong · 2` is the period-4 index pattern `0,1,2,1`. -/

theorem pingpong_two (n : ℕ) : pingpong n 2 = [0, 1, 2, 1].getD (n % 4) 0 := by
  have h4 : n % 4 = 0 ∨ n % 4 = 1 ∨ n % 4 = 2 ∨ n % 4 = 3 := by omega
  unfold pingpong
  rcases h4 with h | h | h | h <;>
    · have hz : (n : ℤ) % (2 * ((2 : ℕ) : ℤ)) = ((n % 4 : ℕ) : ℤ) := by
        push_cast
        omega
      rw [hz, h]
      rfl

/-- C7: over a three-element array `[a, b, c]`, the `alternate` picker
produces `a, b, c, b, a, b, c, ...` — period 4, ping-pong bounce, never
repeating an endpoint (or any element) twice in a row — independent of any
progress argument (the picker closure takes none); the `repeat` picker
returns elements at indices cycling `0..n-1`, wrapping. -/

theorem array_alternate_bounce {α : Type*} (a b c : α) (rand : ℕ → ℕ) :
    arrayPickRun [a, b, c] "alternate" rand 7
      = [some a, some b, some c, some b, some a, some b, some c]
    ∧ (∀ n : ℕ, arrayPickAt [a, b, c] "alternate" rand (n + 4)
        = arrayPickAt [a, b, c] "alternate" rand n)
    ∧ (∀ n : ℕ, pingpong (n + 1) 2 ≠ pingpong n 2)
    ∧ (∀ n : ℕ, arrayPickRun [a, b, c] "repeat" rand 6
        = [some a, some b, some c, some a, some b, some c]
          ∧ arrayPickAt [a, b, c] "repeat" rand n
              = [a, b, c].get? (n % 3)) := by
  have halt : ∀ m : ℕ, arrayPickAt [a, b, c] "alternate" rand m
      = [a, b, c].get? (pingpong m 2) := fun _ => rfl
  have hrep : ∀ m : ℕ, arrayPickAt [a, b, c] "repeat" rand m
      = [a, b, c].get? (m % 3) := fun _ => rfl
  refine ⟨?_, ?_, ?_, ?_⟩
  · have hr : List.range 7 = [0, 1, 2, 3, 4, 5, 6] := by decide
    simp only [arrayPickRun, hr, List.map_cons, List.map_nil, halt,
      pingpong_two]
    norm_num
  · intro n
    have h44 : (n + 4) % 4 = n % 4 := by omega
    rw [halt, halt, pingpong_two, pingpong_two, h44]
  · intro n
    rw [pingpong_two, pingpong_two]
    have h4 : n % 4 = 0 ∨ n % 4 = 1 ∨ n % 4 = 2 ∨ n % 4 = 3 := by omega
    rcases h4 with h | h | h | h <;>
      · have h1 : (n + 1) % 4 = (n % 4 + 1) % 4 := by omega
        rw [h1, h]
        decide
  · intro n
    refine ⟨?_, hrep n⟩
    have hr : List.range 6 = [0, 1, 2, 3, 4, 5] := by decide
    simp only [arrayPickRun, hr, List.map_cons, List.map_nil, hrep]
    norm_num

/-- C9 counterexample: configuring with the unknown curve-shape name
`"bogus"` does not surface any configuration error — `curveInterpolation`
is a total function with no error channel — and silently behaves as
`staircase` (returning `3` at `x = 1/2` on the curve `{0:3, 1:9}`, where
the documented default shape `smooth` would return `6`); likewise the
unknown pick name `"bogus"` silently behaves as the `alternate` picker. -/

theorem config_unknown_names_counterexample :
    curveInterpolation [(0, 3), (1, 9)] "bogus" (1/2)
      = curveInterpolation [(0, 3), (1, 9)] "staircase" (1/2)
    ∧ curveInterpolation [(0, 3), (1, 9)] "bogus" (1/2) = 3
    ∧ curveInterpolation [(0, 3), (1, 9)] "smooth" (1/2) = 6
    ∧ (3 : ℚ) ≠ 6
    ∧ arrayPickRun [10, 20, (30 : ℚ)] "bogus" (fun _ => 0) 4
        = arrayPickRun [10, 20, 30] "alternate" (fun _ => 0) 4 := by
  have hb : curveInterpolation [(0, 3), (1, 9)] "bogus"
      = staircaseLerp (curveTable [(0, 3), (1, 9)]).1
          (curveTable [(0, 3), (1, 9)]).2 := rfl
  have hs : curveInterpolation [(0, 3), (1, 9)] "staircase"
      = staircaseLerp (curveTable [(0, 3), (1, 9)]).1
          (curveTable [(0, 3), (1, 9)]).2 := rfl
  have hm : curveInterpolation [(0, 3), (1, 9)] "smooth"
      = smoothInterpolation (curveTable [(0, 3), (1, 9)]).1
          (curveTable [(0, 3), (1, 9)]).2 := rfl
  refine ⟨by rw [hb, hs], ?_, ?_, by norm_num, rfl⟩
  · rw [hb]
    norm_num [curveTable, lookupKey, List.mergeSort, staircaseLerp, segIdx]
  · rw [hm]
    norm_num [curveTable, lookupKey, List.mergeSort, smoothInterpolation,
      segIdx]

/-- C9 (amended): configuration never surfaces errors for unknown names:
`curveInterpolation` silently sends every shape other than `"smooth"` and
`"linear"` to the staircase interpolator, and `arrayPick` silently sends
every pick other than `"random"` and `"repeat"` to the alternate
(ping-pong) picker; the documented defaults (`pick = "random"`,
`curveShape = "smooth"`, `easing = "linear"`) apply only when the field is
absent, through default parameters / `||`-defaults. -/

theorem config_silent_defaults :
    (∀ (curve : List (ℚ × ℚ)) (shape : String),
        shape ≠ "smooth" → shape ≠ "linear" →
        curveInterpolation curve shape
          = staircaseLerp (curveTable curve).1 (curveTable curve).2)
    ∧ (∀ {α : Type} (arr : List α) (pick : String) (rand : ℕ → ℕ) (n : ℕ),
        pick ≠ "random" → pick ≠ "repeat" →
        arrayPickAt arr pick rand n
          = arr.get? (pingpong n (arr.length - 1)))
    ∧ pickOrDefault none = "random"
    ∧ shapeOrDefault none = "smooth"
    ∧ easingOrDefault none = "linear" := by
  refine ⟨?_, ?_, rfl, rfl, rfl⟩
  · intro curve shape h1 h2
    unfold curveInterpolation
    split <;> simp_all
  · intro α arr pick rand n h1 h2
    unfold arrayPickAt
    split <;> simp_all

/-- Witness for `config_silent_defaults` at the unknown names `"bogus"`. -/

theorem config_silent_defaults_witness :
    curveInterpolation [(0, 3), (1, 9)] "bogus" (1/2)
      = staircaseLerp (curveTable [(0, 3), (1, 9)]).1
          (curveTable [(0, 3), (1, 9)]).2 (1/2)
    ∧ arrayPickAt [10, 20, (30 : ℚ)] "bogus" (fun _ => 0) 2 = some 30 := by
  constructor
  · exact congrFun
      (config_silent_defaults.1 [(0, 3), (1, 9)] "bogus"
        (by decide) (by decide)) (1/2)
  · rw [config_silent_defaults.2.1 [10, 20, (30 : ℚ)] "bogus" (fun _ => 0) 2
      (by decide) (by decide)]
    rfl

/-- C8 evaluated at the failing input: the scalar `lerp` stepper with
`start = 0, end = 10, easing = linear, forceInteger = true` returns
`5/2 = 2.5` at progress `0.25` — not the integer `3` the claim (and the
code's own `forceInteger` doc comments, "Rounds result if true") require —
because no step path reads the stored flag.  The unused `lerpScalar`
helper, which does implement the documented rounding, would return `3`
(`Math.round(2.5) = 3`). -/

theorem scalar_force_integer_dead :
    scalarSpanLerpStep 0 10 (fun t => t) true (1/4) = 5/2
    ∧ (5/2 : ℚ) ≠ 3
    ∧ lerpScalar 0 10 (1/4) true = 3 := by
  refine ⟨by norm_num [scalarSpanLerpStep, mathUtilsLerp], by norm_num, ?_⟩
  have h : mathUtilsLerp 0 10 (1/4) = 5/2 := by norm_num [mathUtilsLerp]
  simp only [lerpScalar, h, if_pos]
  rw [show (3 : ℚ) = ((3 : ℤ) : ℚ) by norm_num]
  norm_num [round_eq]

/-- Helper: an easing fixing 0 and 1 gives a stepper hitting `start` at 0
and `end` at 1. -/

theorem spanLerpStep_endpoints (f : ℝ → ℝ) (h0 : f 0 = 0) (h1 : f 1 = 1)
    (s e : ℝ) : spanLerpStep s e f 0 = s ∧ spanLerpStep s e f 1 = e := by
  constructor
  · simp [spanLerpStep, h0]
  · simp [spanLerpStep, h1]

/-- C3: every easing function in the table satisfies `easing 0 = 0` and
`easing 1 = 1` (exactly, in the real-number model), and consequently every
`lerp` stepper (componentwise vector path and scalar path alike; the
rotation slerp path relies on the spherical-interpolation primitive, which
the spec declares an external collaborator) satisfies `step 0 = start` and
`step 1 = end`. -/

theorem lerp_endpoints_all_easings :
    ∀ p ∈ easingTable, p.2 0 = 0 ∧ p.2 1 = 1
      ∧ ∀ s e : ℝ, spanLerpStep s e p.2 0 = s ∧ spanLerpStep s e p.2 1 = e := by
  intro p hp
  fin_cases hp <;>
    · refine ⟨?_, ?_, fun s e => spanLerpStep_endpoints _ ?_ ?_ s e⟩ <;>
        norm_num [easings.linear, easings.quadIn, easings.quadOut,
          easings.quadInOut, easings.cubicIn, easings.cubicOut,
          easings.cubicInOut, easings.quartIn, easings.quartOut,
          easings.quartInOut, easings.sineIn, easings.sineOut,
          easings.sineInOut, easings.expoIn, easings.expoOut,
          easings.expoInOut, easings.circIn, easings.circOut,
          easings.circInOut, easings.backIn, easings.backOut,
          easings.backInOut, Real.cos_pi_div_two, Real.cos_zero,
          Real.sin_zero, Real.sin_pi_div_two, Real.cos_pi, Real.sqrt_one,
          Real.sqrt_zero, Real.rpow_zero]

/-- Witness for `lerp_endpoints_all_easings` at the `sineIn` entry with
`start = 3, end = 7`. -/

theorem lerp_endpoints_all_easings_witness :
    easings.sineIn 0 = 0 ∧ easings.sineIn 1 = 1
    ∧ spanLerpStep 3 7 easings.sineIn 0 = 3
    ∧ spanLerpStep 3 7 easings.sineIn 1 = 7 := by
  have h := lerp_endpoints_all_easings ("sineIn", easings.sineIn)
    (by simp [easingTable])
  exact ⟨h.1, h.2.1, (h.2.2 3 7).1, (h.2.2 3 7).2⟩

end ThreeSpan

